import Mathlib

/-!
Verification of the go-ssss library (Sampling Space-Saving Sets).

This file gives a shallow embedding of the repository's Go source:

  * `config.go`                : `Config`, `NewConfig`
  * `hll.go` (unnamed part)    : `HLLConfig`, `NewHLLConfig`, `HyperLogLog` and its methods
  * `cached_sketch.go` (unnamed part) : `CachedSketch` and its methods
  * `ssss.go`                  : `SamplingSpaceSavingSets` and its methods
  * `types.go` (unnamed part)  : `LabelCount`, the `CardinalitySketch` interface

Modelling conventions:

  * Go `uint64` values are modelled as `Nat`; arithmetic that can wrap is
    reduced `% 2^64` exactly where Go wraps.
  * Go `float64` arithmetic is modelled exactly: products, quotients and the
    incrementally maintained `zInv` as `ℚ`, and `math.Log` as `Real.log`.
    The `uint64(...)` conversion of a nonnegative float is `Nat.floor`.
  * The FNV-1a hashing of an item's `fmt "%v"` rendering is modelled
    parametrically: every operation that hashes items takes an explicit
    `hash : T → Nat` argument.  For nonnegative integer items the real
    function is `fnvNat` below (FNV-1a over the decimal digit string),
    which is used in all concrete executions.
  * The Go `map[L]*CachedSketch` is modelled as an association list with
    the key-uniqueness invariant carried separately; iteration order is the
    list order (Go's map iteration order is unspecified).
  * In-place mutation becomes state passing.  `HyperLogLog.Merge` can fail,
    so it returns `Except`; the tracker-level `Merge` returns the final
    receiver state together with `none` (Go `nil` error) or `some msg`,
    so that early error returns that leave mutations behind are observable.
-/

/-- FNV-1a 64-bit hash of a byte sequence, as in Go `hash/fnv.New64a`:
start from the offset basis and for each byte xor it in and multiply by the
FNV prime, wrapping at 64 bits. -/
def fnv1a64 (bytes : List Nat) : Nat :=
  bytes.foldl (fun h b => ((h ^^^ b) * 1099511628211) % 2^64) 14695981039346656037

/-- FNV-1a 64 hash of the bytes of a string (ASCII code points). -/
def fnvString (s : String) : Nat := fnv1a64 (s.data.map Char.toNat)

/-- Hash of a nonnegative integer item: Go's `fmt.Fprintf(hasher, "%v", item)`
renders an integer in decimal, so this is FNV-1a of the decimal string. -/
def fnvNat (n : Nat) : Nat := fnvString (Nat.repr n)

/-- Go `bits.TrailingZeros64`: index of the least-significant set bit among
bits 0..63, and 64 when the (64-bit) value is zero. -/
def trailingZeros64 (n : Nat) : Nat :=
  match (List.range 64).find? (fun i => n.testBit i) with
  | some i => i
  | none => 64

/-- Go `bits.Len64` (and `bits.Len` on a 64-bit platform): one plus the index
of the most-significant set bit among bits 0..63, and 0 for a zero value. -/
def len64 (n : Nat) : Nat :=
  match (List.range 64).reverse.find? (fun i => n.testBit i) with
  | some i => i + 1
  | none => 0

/-- Go `bits.LeadingZeros64 x = 64 - bits.Len64 x`. -/
def leadingZeros64 (n : Nat) : Nat := 64 - len64 n

/-- Go `math.Pow(2.0, -float64 r)` for a register value `r : Nat`; exact
as a rational. -/
def pow2neg (r : Nat) : ℚ := 1 / 2^r

/-- `HLLConfig` from the HyperLogLog source file. -/
structure HLLConfig where
  NumRegisters : Nat
  Alpha : ℚ
  Seeds : List Nat

/-- The `switch` computing the bias-correction factor inside `NewHLLConfig`. -/
def alphaOf (numRegisters : Nat) : ℚ :=
  if numRegisters = 16 then 0.673
  else if numRegisters = 32 then 0.697
  else if numRegisters = 64 then 0.709
  else 0.7213 / (1 + 1.079 / (numRegisters : ℚ))

/-- `NewHLLConfig`.  `rand` models the cryptographic seed source
(`secureRandomInt`), `seeds = none` models a nil Go slice (only a nil slice
triggers seed generation; a non-nil empty slice is passed through). -/
def NewHLLConfig (rand : Nat → Nat) (numRegisters : Nat) (seeds : Option (List Nat)) :
    Except String HLLConfig :=
  if numRegisters = 0 then .error "number of registers must be greater than zero"
  else if numRegisters &&& (numRegisters - 1) ≠ 0 then
    .error "number of registers must be a power of 2"
  else
    let seeds := match seeds with
      | none => (List.range 8).map rand
      | some s => s
    .ok { NumRegisters := numRegisters, Alpha := alphaOf numRegisters, Seeds := seeds }

/-- `HyperLogLog` sketch state.  The Go type parameter `T` only feeds the
item-hashing step, which is parametric here, so the state needs no `T`. -/
structure HyperLogLog where
  config : HLLConfig
  registers : List Nat
  numZeroRegisters : Nat
  zInv : ℚ

/-- `NewHyperLogLog`. -/
def NewHyperLogLog (config : HLLConfig) : HyperLogLog :=
  { config := config
    registers := List.replicate config.NumRegisters 0
    numZeroRegisters := config.NumRegisters
    zInv := (config.NumRegisters : ℚ) }

/-- `HyperLogLog.hashItem`: FNV-1a of the item xor-mixed with `Seeds[1]`.
Go indexes `Seeds[1]` unconditionally and panics when fewer than two seeds
are configured; the model totalises that read with `getD` (see the claim
about seed-count validation, which shows `NewHLLConfig` accepts short seed
lists, so the panic is reachable in Go). -/
def HyperLogLog.hashItem (h : HyperLogLog) (itemHash : Nat) : Nat :=
  itemHash ^^^ h.config.Seeds.getD 1 0

/-- `HyperLogLog.insertHash`: split off `log2 m` low bits as the register
index, rank the remainder by leading zeros plus one, and update the register,
`numZeroRegisters` and `zInv` when the rank grows. -/
def HyperLogLog.insertHash (h : HyperLogLog) (hash : Nat) : HyperLogLog :=
  let registerBits := len64 (h.config.NumRegisters - 1)
  let registerIdx := hash &&& (2 ^ registerBits - 1)
  let remainingHash := hash >>> registerBits
  let leadingZeros := leadingZeros64 remainingHash + 1
  if h.registers.getD registerIdx 0 < leadingZeros then
    { h with
      registers := h.registers.set registerIdx leadingZeros
      numZeroRegisters :=
        if h.registers.getD registerIdx 0 = 0 then h.numZeroRegisters - 1
        else h.numZeroRegisters
      zInv := h.zInv - pow2neg (h.registers.getD registerIdx 0) + pow2neg leadingZeros }
  else h

/-- `HyperLogLog.Insert`, with the FNV hashing of the item passed in as
`hash`. -/
def HyperLogLog.Insert (hash : T → Nat) (h : HyperLogLog) (item : T) : HyperLogLog :=
  h.insertHash (h.hashItem (hash item))

/-- `HyperLogLog.Clear`: zero every register, reset the zero count and
`zInv` to `m`. -/
def HyperLogLog.Clear (h : HyperLogLog) : HyperLogLog :=
  { h with
    registers := h.registers.map (fun _ => 0)
    numZeroRegisters := h.config.NumRegisters
    zInv := (h.config.NumRegisters : ℚ) }

/-- `CachedSketch`: a `HyperLogLog` plus the cached cardinality value.  In
the repository the wrapped sketch is always a `HyperLogLog`. -/
structure CachedSketch where
  sketch : HyperLogLog
  cardinality : Nat

/-- A value of the Go `CardinalitySketch` interface: in this repository it
is either a bare `*HyperLogLog` or a `*CachedSketch`. -/
inductive CardinalitySketch where
  | hll (h : HyperLogLog)
  | cached (c : CachedSketch)

/-- `HyperLogLog.Merge`: type-switch on the argument, require equal register
counts, then take register-wise maxima and recompute `numZeroRegisters` and
`zInv` from scratch (the Go loop runs over indices `0..m-1` and maintains the
count and sum while copying; the recomputed form shown here is the loop's
result on states whose register slice has length `m`). -/
def HyperLogLog.Merge (h : HyperLogLog) (other : CardinalitySketch) :
    Except String HyperLogLog :=
  match other with
  | .cached _ => .error "can only merge with another HyperLogLog"
  | .hll otherHLL =>
    if h.config.NumRegisters ≠ otherHLL.config.NumRegisters then
      .error "config mismatch: different number of registers"
    else
      let registers := (List.range h.config.NumRegisters).map (fun i =>
        max (h.registers.getD i 0) (otherHLL.registers.getD i 0))
      .ok { h with
        registers := registers
        numZeroRegisters := (registers.filter (fun r => r = 0)).length
        zInv := (registers.map pow2neg).sum }

/-- The raw estimate `uint64(float64(m*m) * alpha / zInv)` from
`HyperLogLog.Cardinality` (exact rational arithmetic, floored). -/
def HyperLogLog.rawEstimate (h : HyperLogLog) : Nat :=
  Nat.floor (((h.config.NumRegisters * h.config.NumRegisters : Nat) : ℚ)
    * h.config.Alpha / h.zInv)

/-- `HyperLogLog.linearCounting`: `float64(m) * math.Log(float64(m) / float64(V))`. -/
noncomputable def HyperLogLog.linearCounting (h : HyperLogLog) : ℝ :=
  (h.config.NumRegisters : ℝ) *
    Real.log ((h.config.NumRegisters : ℝ) / (h.numZeroRegisters : ℝ))

/-- `HyperLogLog.Cardinality`: the raw estimate, replaced by the truncated
linear-counting estimate when it is at most `5*(m >> 1)` and at least one
register is zero.  Large-range correction is absent, as in the source. -/
noncomputable def HyperLogLog.Cardinality (h : HyperLogLog) : Nat :=
  let estimate := h.rawEstimate
  if estimate ≤ 5 * (h.config.NumRegisters >>> 1) then
    if 0 < h.numZeroRegisters then Nat.floor h.linearCounting else estimate
  else estimate

/-- `NewCachedSketch`: wraps a sketch with cached cardinality 0. -/
def NewCachedSketch (sketch : HyperLogLog) : CachedSketch :=
  { sketch := sketch, cardinality := 0 }

/-- `CachedSketch.Insert`: delegate, then refresh the cache. -/
noncomputable def CachedSketch.Insert (hash : T → Nat) (c : CachedSketch) (item : T) :
    CachedSketch :=
  let sketch := c.sketch.Insert hash item
  { sketch := sketch, cardinality := sketch.Cardinality }

/-- `CachedSketch.Merge`: when the argument is another `CachedSketch`, merge
the inner sketches and refresh the cache; otherwise Go returns
`c.sketch.Merge(other)` directly, merging the inner sketch WITHOUT refreshing
the cached value (this is the delegated path examined by the cache-coherence
claim). -/
noncomputable def CachedSketch.Merge (c : CachedSketch) (other : CardinalitySketch) :
    Except String CachedSketch :=
  match other with
  | .hll _ => (c.sketch.Merge other).map (fun sketch => { c with sketch := sketch })
  | .cached otherCached =>
    match c.sketch.Merge (.hll otherCached.sketch) with
    | .error e => .error e
    | .ok sketch => .ok { sketch := sketch, cardinality := sketch.Cardinality }

/-- `CachedSketch.Clear`: delegate and reset the cache to 0. -/
def CachedSketch.Clear (c : CachedSketch) : CachedSketch :=
  { sketch := c.sketch.Clear, cardinality := 0 }

/-- `CachedSketch.Cardinality`: return the cached value, never recomputing. -/
def CachedSketch.Cardinality (c : CachedSketch) : Nat := c.cardinality

/-- `Config` from `config.go`. -/
structure Config where
  MaxNumCounters : Nat
  Seeds : List Nat
  CardinalitySketchConfig : HLLConfig

/-- `NewConfig`; `rand` models `secureRandomInt`, `seeds = none` a nil slice. -/
def NewConfig (rand : Nat → Nat) (maxNumCounters : Nat)
    (cardinalitySketchConfig : HLLConfig) (seeds : Option (List Nat)) :
    Except String Config :=
  if maxNumCounters = 0 then .error "max number of counters must be greater than zero"
  else
    let seeds := match seeds with
      | none => (List.range 4).map rand
      | some s => s
    .ok { MaxNumCounters := maxNumCounters, Seeds := seeds
          CardinalitySketchConfig := cardinalitySketchConfig }

/-- `LabelCount` from the interface source file. -/
structure LabelCount (L : Type) where
  Label : L
  Count : Nat

/-- Association-list read, modelling `s.counters[label]`. -/
def lookupC [DecidableEq L] : List (L × CachedSketch) → L → Option CachedSketch
  | [], _ => none
  | (k, c) :: rest, l => if k = l then some c else lookupC rest l

/-- Association-list in-place update of the value stored under a present key,
modelling mutation through the `*CachedSketch` pointer held in the map. -/
def updateC [DecidableEq L] : List (L × CachedSketch) → L → CachedSketch →
    List (L × CachedSketch)
  | [], _, _ => []
  | (k, c) :: rest, l, c' =>
    if k = l then (k, c') :: rest else (k, c) :: updateC rest l c'

/-- Association-list key removal, modelling `delete(s.counters, label)`. -/
def eraseC [DecidableEq L] : List (L × CachedSketch) → L → List (L × CachedSketch)
  | [], _ => []
  | (k, c) :: rest, l => if k = l then rest else (k, c) :: eraseC rest l

/-- `SamplingSpaceSavingSets` tracker state.  As with `HyperLogLog`, the Go
item-type parameter `T` appears only in hashing and is passed per-operation. -/
structure SamplingSpaceSavingSets (L : Type) where
  config : Config
  counters : List (L × CachedSketch)
  threshold : Nat

/-- `NewSamplingSpaceSavingSets`. -/
def NewSamplingSpaceSavingSets (L : Type) (config : Config) :
    SamplingSpaceSavingSets L :=
  { config := config, counters := [], threshold := 0 }

/-- `SamplingSpaceSavingSets.cardinalityEstimate`: the cheap admission
estimate.  The Go receiver also takes the label but ignores it.  With no
seeds configured the fallback uses the unmixed hash; otherwise per-seed
estimates `2^(trailing zeros)` (saturated to `MaxUint64` at 64) are summed
with `uint64` wrap-around and an integer average is returned. -/
def SamplingSpaceSavingSets.cardinalityEstimate (s : SamplingSpaceSavingSets L)
    (itemHash : Nat) : Nat :=
  let seedCount := s.config.Seeds.length
  if seedCount = 0 then
    let trailingZeros := trailingZeros64 itemHash
    if 64 ≤ trailingZeros then 2^64 - 1 else 2 ^ trailingZeros
  else
    let totalEstimate := s.config.Seeds.foldl (fun acc seed =>
      let trailingZeros := trailingZeros64 (itemHash ^^^ seed)
      (acc + if 64 ≤ trailingZeros then 2^64 - 1 else 2 ^ trailingZeros) % 2^64) 0
    totalEstimate / seedCount

/-- The minimum scan in the admission branch of `Insert`: Go iterates the map
with `minLabel` starting at the zero value and `minCardinality` at
`MaxUint64`, keeping the first strict improvement.  `none` for the label
models the zero value never being overwritten (which happens exactly when no
cached cardinality is below `MaxUint64`, in which case the replacement guard
`estimate > minCardinality` is unsatisfiable, so the zero-value label is
never used for deletion). -/
def scanMin (cs : List (L × CachedSketch)) : Option L × Nat :=
  cs.foldl
    (fun acc p => if p.2.cardinality < acc.2 then (some p.1, p.2.cardinality) else acc)
    (none, 2^64 - 1)

/-- `SamplingSpaceSavingSets.Insert`. -/
noncomputable def SamplingSpaceSavingSets.Insert [DecidableEq L] (hash : T → Nat)
    (s : SamplingSpaceSavingSets L) (label : L) (item : T) :
    SamplingSpaceSavingSets L :=
  match lookupC s.counters label with
  | some counter =>
    { s with counters := updateC s.counters label (counter.Insert hash item) }
  | none =>
    if s.counters.length < s.config.MaxNumCounters then
      { s with counters := s.counters ++
          [(label, (NewCachedSketch
            (NewHyperLogLog s.config.CardinalitySketchConfig)).Insert hash item)] }
    else
      let estimate := s.cardinalityEstimate (hash item)
      if s.threshold < estimate then
        let scan := scanMin s.counters
        let s' := { s with threshold := scan.2 }
        match scan.1 with
        | none => s'
        | some minLabel =>
          if scan.2 < estimate then
            match lookupC s.counters minLabel with
            | none => s'
            | some minCounter =>
              { s' with counters := eraseC s.counters minLabel ++
                  [(label, (minCounter.Clear).Insert hash item)] }
          else s'
      else s

/-- The per-label merge loop of `SamplingSpaceSavingSets.Merge`: for each of
the other tracker's counters, merge into the existing counter or into a
freshly created one; an error stops the loop, leaving the mutations made so
far in place (Go returns early from inside the loop). -/
noncomputable def mergeCountersLoop [DecidableEq L] (cfg : Config) :
    List (L × CachedSketch) → List (L × CachedSketch) →
    List (L × CachedSketch) × Option String
  | acc, [] => (acc, none)
  | acc, (label, counter) :: rest =>
    match lookupC acc label with
    | some existingCounter =>
      match existingCounter.Merge (.cached counter) with
      | .error e => (acc, some e)
      | .ok c' => mergeCountersLoop cfg (updateC acc label c') rest
    | none =>
      match (NewCachedSketch
          (NewHyperLogLog cfg.CardinalitySketchConfig)).Merge (.cached counter) with
      | .error e => (acc, some e)
      | .ok c' => mergeCountersLoop cfg (acc ++ [(label, c')]) rest

/-- The final threshold recomputation in `Merge`: minimum cached cardinality
starting from `MaxUint64`, overridden to 0 when no counters remain. -/
def recomputeThreshold (cs : List (L × CachedSketch)) : Nat :=
  let t := cs.foldl (fun acc p => if p.2.cardinality < acc then p.2.cardinality else acc)
    (2^64 - 1)
  if cs.isEmpty then 0 else t

/-- `SamplingSpaceSavingSets.Merge`.  The result is the final state of the
receiver together with the returned error (`none` is Go's `nil`): the three
configuration checks happen before any mutation, while an error from the
counter loop leaves the partial mutations visible in the returned state,
exactly as in Go.  The argument is never mutated.  After a successful loop,
entries beyond capacity are dropped in descending-cardinality order and the
threshold is recomputed. -/
noncomputable def SamplingSpaceSavingSets.Merge [DecidableEq L]
    (s other : SamplingSpaceSavingSets L) :
    SamplingSpaceSavingSets L × Option String :=
  if s.config.MaxNumCounters ≠ other.config.MaxNumCounters ∨
      s.config.Seeds.length ≠ other.config.Seeds.length then
    (s, some "config mismatch")
  else if s.config.Seeds ≠ other.config.Seeds then
    (s, some "config mismatch: different seeds")
  else if s.config.CardinalitySketchConfig.NumRegisters ≠
      other.config.CardinalitySketchConfig.NumRegisters then
    (s, some "config mismatch: different HLL register count")
  else
    match mergeCountersLoop s.config s.counters other.counters with
    | (cs, some e) => ({ s with counters := cs }, some e)
    | (cs, none) =>
      let cs2 :=
        if s.config.MaxNumCounters < cs.length then
          let entries := cs.map (fun p => LabelCount.mk p.1 p.2.cardinality)
          let sorted := entries.mergeSort (fun a b => decide (b.Count ≤ a.Count))
          (sorted.drop s.config.MaxNumCounters).foldl (fun acc e => eraseC acc e.Label) cs
        else cs
      ({ s with counters := cs2, threshold := recomputeThreshold cs2 }, none)

/-- `SamplingSpaceSavingSets.Clear`. -/
def SamplingSpaceSavingSets.Clear (s : SamplingSpaceSavingSets L) :
    SamplingSpaceSavingSets L :=
  { s with counters := [], threshold := 0 }

/-- `SamplingSpaceSavingSets.Cardinality`: cached value of the label's
counter, or the minimum cached cardinality over all counters (0 when empty). -/
def SamplingSpaceSavingSets.Cardinality [DecidableEq L]
    (s : SamplingSpaceSavingSets L) (label : L) : Nat :=
  match lookupC s.counters label with
  | some counter => counter.Cardinality
  | none =>
    if 0 < s.counters.length then
      s.counters.foldl (fun acc p => if p.2.cardinality < acc then p.2.cardinality else acc)
        (2^64 - 1)
    else 0

/-- `SamplingSpaceSavingSets.Top`.  `k` is a Go `int`, hence `Int` here.
Go slices `entries[:k]` after sorting, which panics for negative `k`
(`none`); otherwise the first `k` (or all) sorted entries are returned. -/
def SamplingSpaceSavingSets.Top (s : SamplingSpaceSavingSets L) (k : Int) :
    Option (List (LabelCount L)) :=
  let entries := s.counters.map (fun p => LabelCount.mk p.1 p.2.cardinality)
  let sorted := entries.mergeSort (fun a b => decide (b.Count ≤ a.Count))
  if k < (sorted.length : Int) then
    if 0 ≤ k then some (sorted.take k.toNat) else none
  else some sorted

/-- Concrete second HLL seed chosen so that item `0` hashes (after the
`Seeds[1]` xor of `hashItem`) to exactly `2^60`, i.e. rank 4 on a
one-register sketch.  All concrete scenarios below run a genuine FNV-1a
execution of the embedded code. -/
def seed1 : Nat := fnvNat 0 ^^^ 2^60

/-- A legal one-register sketch configuration (`1 = 2^0` passes the
power-of-two check of `NewHLLConfig`, and `alphaOf 1` is its alpha). -/
def hllCfg1 : HLLConfig := { NumRegisters := 1, Alpha := alphaOf 1, Seeds := [0, seed1] }

/-- Tracker configuration with capacity 1 and an empty admission seed
list (Go accepts a non-nil empty slice, which selects the seedless
fallback of `cardinalityEstimate`). -/
def trCfg1 : Config := { MaxNumCounters := 1, Seeds := [], CardinalitySketchConfig := hllCfg1 }

/-- One-register sketch holding rank 4; its cardinality is 5. -/
def hllReg4 : HyperLogLog := ⟨hllCfg1, [4], 0, 1/16⟩

/-- One-register sketch holding rank 1; its cardinality is 0. -/
def hllReg1 : HyperLogLog := ⟨hllCfg1, [1], 0, 1/2⟩

/-- The tracker state after `Insert 0 0` on a fresh `trCfg1` tracker:
one counter of cardinality 5, threshold still 0. -/
def S1 : SamplingSpaceSavingSets Nat := ⟨trCfg1, [(0, ⟨hllReg4, 5⟩)], 0⟩

/-- First step of the concrete execution: insert item `0` under label `0`. -/
noncomputable def trace1 : SamplingSpaceSavingSets Nat :=
  SamplingSpaceSavingSets.Insert fnvNat (NewSamplingSpaceSavingSets Nat trCfg1) 0 0

/-- The tracker state after additionally running `Insert 1 14`: the
admission test sets the threshold to 5 (the old minimum) and then evicts
label 0 in favour of label 1, whose fresh counter has cardinality 0 - so
the threshold (5) now exceeds the minimum cardinality (0). -/
def S2 : SamplingSpaceSavingSets Nat := ⟨trCfg1, [(1, ⟨hllReg1, 0⟩)], 5⟩

/-- Second step of the concrete execution: insert item `14` (whose FNV-1a
hash has exactly 3 trailing zeros, giving the cheap estimate 8) under the
new label `1`. -/
noncomputable def trace2 : SamplingSpaceSavingSets Nat :=
  SamplingSpaceSavingSets.Insert fnvNat trace1 1 14

/-- A tracker configuration differing from `trCfg1` only in capacity,
used to exercise the merge configuration mismatch. -/
def trCfg2 : Config := { MaxNumCounters := 2, Seeds := [], CardinalitySketchConfig := hllCfg1 }

/-- A 16-register configuration (alpha 0.673 branch). -/
def hllCfg16 : HLLConfig := { NumRegisters := 16, Alpha := alphaOf 16, Seeds := [1, 2] }

/-- The configuration `NewHLLConfig` returns for an explicitly empty
(non-nil) seed slice: zero seeds, fewer than the two that
`HyperLogLog.hashItem` requires. -/
def shortSeedHLLConfig : HLLConfig := { NumRegisters := 16, Alpha := alphaOf 16, Seeds := [] }

/-- State invariant of a `HyperLogLog` as maintained by its constructor and
operations: register slice of length `m`, `m` a power of two, the alpha of
`NewHLLConfig`, and the `numZeroRegisters` and `zInv` accumulators agreeing
with the registers. -/
def HyperLogLog.WF (h : HyperLogLog) : Prop :=
  h.registers.length = h.config.NumRegisters ∧
  (∃ k, h.config.NumRegisters = 2^k) ∧
  h.config.Alpha = alphaOf h.config.NumRegisters ∧
  h.numZeroRegisters = (h.registers.filter (fun r => r = 0)).length ∧
  h.zInv = (h.registers.map pow2neg).sum

/-- Invariant carried by every tracker the public API can produce. -/
def TrackerInv (cfg : Config) (s : SamplingSpaceSavingSets L) : Prop :=
  s.config = cfg ∧
  s.counters.length ≤ cfg.MaxNumCounters ∧
  (s.counters.map Prod.fst).Nodup ∧
  ∀ p ∈ s.counters, p.2.sketch.config.NumRegisters =
    cfg.CardinalitySketchConfig.NumRegisters

/-- The register-count condition needed for counter-level merges to succeed. -/
def CountersWF (s : SamplingSpaceSavingSets L) : Prop :=
  ∀ p ∈ s.counters, p.2.sketch.config.NumRegisters =
    s.config.CardinalitySketchConfig.NumRegisters

/-- States producible through the public API: construction, insert, clear,
and merging with another producible tracker (of possibly different
configuration; a config mismatch then fails the merge harmlessly). -/
inductive Reachable [DecidableEq L] (hash : T → Nat) : Config → SamplingSpaceSavingSets L → Prop
  | new (cfg : Config) : Reachable hash cfg (NewSamplingSpaceSavingSets L cfg)
  | insert {cfg : Config} {s : SamplingSpaceSavingSets L} (label : L) (item : T) :
      Reachable hash cfg s →
      Reachable hash cfg (SamplingSpaceSavingSets.Insert hash s label item)
  | clear {cfg : Config} {s : SamplingSpaceSavingSets L} :
      Reachable hash cfg s → Reachable hash cfg s.Clear
  | merge {cfg cfg' : Config} {s o : SamplingSpaceSavingSets L} :
      Reachable hash cfg s → Reachable hash cfg' o →
      Reachable hash cfg (SamplingSpaceSavingSets.Merge s o).1

/-- On a one-register sketch, `insertHash` with a winning rank. -/
lemma insertHash_one (cfg : HLLConfig) (hm : cfg.NumRegisters = 1)
    (r0 V : Nat) (z : ℚ) (hash : Nat) (hlt : r0 < leadingZeros64 hash + 1) :
    HyperLogLog.insertHash ⟨cfg, [r0], V, z⟩ hash =
      ⟨cfg, [leadingZeros64 hash + 1], (if r0 = 0 then V - 1 else V),
        z - pow2neg r0 + pow2neg (leadingZeros64 hash + 1)⟩ := by
  have hlen : len64 0 = 0 := by decide
  unfold HyperLogLog.insertHash
  simp [hm, hlen, hlt]

lemma Cardinality_of_no_zero (h : HyperLogLog) (hV : h.numZeroRegisters = 0) :
    h.Cardinality = h.rawEstimate := by
  unfold HyperLogLog.Cardinality
  rw [hV]
  simp

lemma raw_reg4 : hllReg4.rawEstimate = 5 := by
  unfold hllReg4 HyperLogLog.rawEstimate
  norm_num [hllCfg1, alphaOf, Nat.floor_eq_iff]

set_option maxRecDepth 100000 in
lemma hllIns0 : HyperLogLog.Insert fnvNat (NewHyperLogLog hllCfg1) 0 = hllReg4 := by
  have hh : HyperLogLog.hashItem (NewHyperLogLog hllCfg1) (fnvNat 0) = 2^60 := by decide
  have hlz : leadingZeros64 (2^60) + 1 = 4 := by decide
  show HyperLogLog.insertHash _ _ = _
  rw [hh]
  have : NewHyperLogLog hllCfg1 = ⟨hllCfg1, [0], 1, 1⟩ := by
    unfold NewHyperLogLog
    norm_num [hllCfg1]
  rw [this, insertHash_one hllCfg1 rfl 0 1 1 (2^60) (by rw [hlz]; decide), hlz]
  unfold hllReg4
  norm_num [pow2neg]

lemma card_reg4 : hllReg4.Cardinality = 5 := by
  rw [Cardinality_of_no_zero _ rfl, raw_reg4]

lemma trace1_eq : trace1 = S1 := by
  unfold trace1 SamplingSpaceSavingSets.Insert NewSamplingSpaceSavingSets
  simp only [lookupC]
  rw [if_pos (by decide)]
  unfold CachedSketch.Insert NewCachedSketch
  simp only []
  rw [show (NewHyperLogLog trCfg1.CardinalitySketchConfig) = NewHyperLogLog hllCfg1 from rfl,
    hllIns0]
  unfold S1
  simp [SamplingSpaceSavingSets.mk.injEq, List.cons.injEq, Prod.mk.injEq,
    CachedSketch.mk.injEq, card_reg4]

lemma raw_reg1 : hllReg1.rawEstimate = 0 := by
  unfold hllReg1 HyperLogLog.rawEstimate
  norm_num [hllCfg1, alphaOf, Nat.floor_eq_iff]

lemma card_reg1 : hllReg1.Cardinality = 0 := by
  rw [Cardinality_of_no_zero _ rfl, raw_reg1]

set_option maxRecDepth 100000 in
lemma hllIns14 : HyperLogLog.Insert fnvNat ⟨hllCfg1, [0], 1, 1⟩ 14 = hllReg1 := by
  have hlz : leadingZeros64
      (HyperLogLog.hashItem ⟨hllCfg1, [0], (1:Nat), (1:ℚ)⟩ (fnvNat 14)) + 1 = 1 := by decide
  show HyperLogLog.insertHash _ _ = _
  rw [insertHash_one hllCfg1 rfl 0 1 1 _ (by rw [hlz]; decide), hlz]
  unfold hllReg1
  norm_num [pow2neg]

set_option maxRecDepth 100000 in
lemma step2_eq : SamplingSpaceSavingSets.Insert fnvNat S1 1 14 = S2 := by
  have htz : trailingZeros64 (fnvNat 14) = 3 := by decide
  unfold S1 SamplingSpaceSavingSets.Insert
  simp only [lookupC, if_neg (by norm_num : ¬ (0:Nat) = 1)]
  rw [if_neg (by norm_num [trCfg1] : ¬ ([((0:Nat), CachedSketch.mk hllReg4 5)].length < trCfg1.MaxNumCounters))]
  have hest : SamplingSpaceSavingSets.cardinalityEstimate
      (SamplingSpaceSavingSets.mk trCfg1 [(0, CachedSketch.mk hllReg4 5)] 0) (fnvNat 14) = 8 := by
    unfold SamplingSpaceSavingSets.cardinalityEstimate
    simp [trCfg1, htz]
  rw [hest]
  have hscan : scanMin [((0:Nat), CachedSketch.mk hllReg4 5)] = (some 0, 5) := by
    unfold scanMin
    norm_num
  rw [if_pos (by norm_num), hscan]
  simp only []
  rw [if_pos (by norm_num)]
  simp only [if_true]
  have hclear : (CachedSketch.mk hllReg4 5).Clear = CachedSketch.mk ⟨hllCfg1, [0], 1, 1⟩ 0 := by
    unfold CachedSketch.Clear HyperLogLog.Clear hllReg4
    norm_num [hllCfg1]
  rw [hclear]
  have hins : CachedSketch.Insert fnvNat (CachedSketch.mk ⟨hllCfg1, [0], 1, 1⟩ 0) 14 =
      CachedSketch.mk hllReg1 0 := by
    unfold CachedSketch.Insert
    rw [show HyperLogLog.Insert fnvNat (CachedSketch.mk ⟨hllCfg1, [0], 1, 1⟩ 0).sketch 14 =
      hllReg1 from hllIns14]
    simp [card_reg1]
  rw [hins]
  unfold S2
  simp [eraseC]

set_option maxRecDepth 100000 in
lemma step3_threshold : (SamplingSpaceSavingSets.Insert fnvNat S2 2 25).threshold = 0 := by
  have htz : trailingZeros64 (fnvNat 25) = 5 := by decide
  unfold S2 SamplingSpaceSavingSets.Insert
  simp only [lookupC, if_neg (by norm_num : ¬ (1:Nat) = 2)]
  rw [if_neg (by norm_num [trCfg1] :
    ¬ ([((1:Nat), CachedSketch.mk hllReg1 0)].length < trCfg1.MaxNumCounters))]
  have hest : SamplingSpaceSavingSets.cardinalityEstimate
      (SamplingSpaceSavingSets.mk trCfg1 [(1, CachedSketch.mk hllReg1 0)] 5) (fnvNat 25) = 32 := by
    unfold SamplingSpaceSavingSets.cardinalityEstimate
    simp [trCfg1, htz]
  rw [hest]
  have hscan : scanMin [((1:Nat), CachedSketch.mk hllReg1 0)] = (some 1, 0) := by
    unfold scanMin
    norm_num
  rw [if_pos (by norm_num), hscan]
  simp only [if_true, lookupC, if_pos rfl]
  norm_num

/-- Any insert that reaches the admission test and passes the cheap-estimate
gate sets the threshold to the scanned minimum. -/
lemma Insert_admission_threshold [DecidableEq L] (hash : T → Nat)
    (s : SamplingSpaceSavingSets L) (label : L) (item : T)
    (habs : lookupC s.counters label = none)
    (hfull : ¬ s.counters.length < s.config.MaxNumCounters)
    (hadm : s.threshold < s.cardinalityEstimate (hash item)) :
    (SamplingSpaceSavingSets.Insert hash s label item).threshold = (scanMin s.counters).2 := by
  unfold SamplingSpaceSavingSets.Insert
  rw [habs]
  simp only []
  rw [if_neg hfull, if_pos hadm]
  rcases hscan : scanMin s.counters with ⟨optL, mc⟩
  rcases optL with _ | ml
  · simp
  · simp only []
    by_cases hlt : mc < s.cardinalityEstimate (hash item)
    · rw [if_pos hlt]
      rcases hml : lookupC s.counters ml with _ | mcounter <;> simp
    · rw [if_neg hlt]

lemma scanMin_le (cs : List (L × CachedSketch)) (init : Option L × Nat) :
    (cs.foldl
      (fun acc p => if p.2.cardinality < acc.2 then (some p.1, p.2.cardinality) else acc)
      init).2 ≤ init.2 ∧
    ∀ p ∈ cs,
      (cs.foldl
        (fun acc p => if p.2.cardinality < acc.2 then (some p.1, p.2.cardinality) else acc)
        init).2 ≤ p.2.cardinality := by
  induction cs generalizing init with
  | nil => simp
  | cons q rest ih =>
    simp only [List.foldl_cons, List.mem_cons]
    have hstep : (if q.2.cardinality < init.2 then (some q.1, q.2.cardinality) else init).2
        ≤ init.2 ∧
        (if q.2.cardinality < init.2 then (some q.1, q.2.cardinality) else init).2
        ≤ q.2.cardinality := by
      by_cases hq : q.2.cardinality < init.2
      · rw [if_pos hq]
        exact ⟨le_of_lt hq, le_refl _⟩
      · rw [if_neg hq]
        exact ⟨le_refl _, le_of_not_lt hq⟩
    obtain ⟨ih1, ih2⟩ := ih (if q.2.cardinality < init.2 then (some q.1, q.2.cardinality) else init)
    refine ⟨le_trans ih1 hstep.1, ?_⟩
    rintro p (rfl | hp)
    · exact le_trans ih1 hstep.2
    · exact ih2 p hp

/-- Merging with a tracker that has the same configuration and no counters:
all checks pass, the loop does nothing, truncation is skipped, and the
threshold is recomputed from the receiver's own counters. -/
lemma Merge_empty_other [DecidableEq L] (s E : SamplingSpaceSavingSets L)
    (hlen : s.counters.length ≤ s.config.MaxNumCounters)
    (hcfg : E.config = s.config) (hE : E.counters = []) :
    SamplingSpaceSavingSets.Merge s E =
      ({ s with threshold := recomputeThreshold s.counters }, none) := by
  unfold SamplingSpaceSavingSets.Merge
  rw [hcfg, hE]
  rw [if_neg (by simp), if_neg (by simp), if_neg (by simp)]
  rw [show mergeCountersLoop s.config s.counters [] = (s.counters, none) from rfl]
  simp only []
  rw [if_neg (not_lt.mpr hlen)]

set_option maxRecDepth 100000 in
lemma merge_S2_fresh :
    SamplingSpaceSavingSets.Merge S2 (NewSamplingSpaceSavingSets Nat trCfg1) =
      (⟨trCfg1, [(1, ⟨hllReg1, 0⟩)], 0⟩, none) := by
  rw [Merge_empty_other S2 (NewSamplingSpaceSavingSets Nat trCfg1) (by norm_num [S2, trCfg1])
    rfl rfl]
  unfold S2 recomputeThreshold
  norm_num

lemma lookupC_eq_none_iff [DecidableEq L] (cs : List (L × CachedSketch)) (l : L) :
    lookupC cs l = none ↔ ∀ p ∈ cs, p.1 ≠ l := by
  induction cs with
  | nil => simp [lookupC]
  | cons q rest ih =>
    rcases q with ⟨k, c⟩
    by_cases hk : k = l
    · subst hk
      simp [lookupC]
    · simp [lookupC, hk, ih]

lemma lookupC_eq_some_mem [DecidableEq L] {cs : List (L × CachedSketch)} {l : L}
    {c : CachedSketch} (h : lookupC cs l = some c) : (l, c) ∈ cs := by
  induction cs with
  | nil => simp [lookupC] at h
  | cons q rest ih =>
    rcases q with ⟨k, c'⟩
    by_cases hk : k = l
    · subst hk
      simp [lookupC] at h
      subst h
      exact List.mem_cons_self _ _
    · rw [lookupC, if_neg hk] at h
      exact List.mem_cons_of_mem _ (ih h)

lemma length_updateC [DecidableEq L] (cs : List (L × CachedSketch)) (l : L) (c : CachedSketch) :
    (updateC cs l c).length = cs.length := by
  induction cs with
  | nil => rfl
  | cons q rest ih =>
    rcases q with ⟨k, c'⟩
    unfold updateC
    by_cases hk : k = l
    · simp [hk]
    · simp [hk, ih]

lemma keys_updateC [DecidableEq L] (cs : List (L × CachedSketch)) (l : L) (c : CachedSketch) :
    (updateC cs l c).map Prod.fst = cs.map Prod.fst := by
  induction cs with
  | nil => rfl
  | cons q rest ih =>
    rcases q with ⟨k, c'⟩
    unfold updateC
    by_cases hk : k = l
    · simp [hk]
    · simp [hk, ih]

lemma mem_updateC [DecidableEq L] {cs : List (L × CachedSketch)} {l : L} {c : CachedSketch}
    {p : L × CachedSketch} (hp : p ∈ updateC cs l c) : p ∈ cs ∨ p.2 = c := by
  induction cs with
  | nil => simp [updateC] at hp
  | cons q rest ih =>
    rcases q with ⟨k, c'⟩
    unfold updateC at hp
    by_cases hk : k = l
    · rw [if_pos hk] at hp
      rcases List.mem_cons.mp hp with rfl | hmem
      · exact Or.inr rfl
      · exact Or.inl (List.mem_cons_of_mem _ hmem)
    · rw [if_neg hk] at hp
      rcases List.mem_cons.mp hp with rfl | hmem
      · exact Or.inl (List.mem_cons_self _ _)
      · rcases ih hmem with h | h
        · exact Or.inl (List.mem_cons_of_mem _ h)
        · exact Or.inr h

lemma eraseC_sublist [DecidableEq L] (cs : List (L × CachedSketch)) (l : L) :
    (eraseC cs l).Sublist cs := by
  induction cs with
  | nil => simp [eraseC]
  | cons q rest ih =>
    rcases q with ⟨k, c⟩
    unfold eraseC
    by_cases hk : k = l
    · rw [if_pos hk]
      exact List.sublist_cons_self _ _
    · rw [if_neg hk]
      exact ih.cons₂ _

lemma length_eraseC [DecidableEq L] {cs : List (L × CachedSketch)} {l : L} {c : CachedSketch}
    (h : (l, c) ∈ cs) : (eraseC cs l).length + 1 = cs.length := by
  induction cs with
  | nil => cases h
  | cons q rest ih =>
    rcases q with ⟨k, c'⟩
    unfold eraseC
    by_cases hk : k = l
    · simp [hk]
    · rcases List.mem_cons.mp h with heq | hmem
      · exact absurd (congrArg Prod.fst heq).symm hk
      · simp [hk, ih hmem]

lemma mem_keys_eraseC [DecidableEq L] {cs : List (L × CachedSketch)} {l l' : L}
    (hne : l' ≠ l) (h : l' ∈ cs.map Prod.fst) : l' ∈ (eraseC cs l).map Prod.fst := by
  induction cs with
  | nil => simp at h
  | cons q rest ih =>
    rcases q with ⟨k, c⟩
    unfold eraseC
    by_cases hk : k = l
    · rw [if_pos hk]
      rcases List.mem_cons.mp h with heq | hmem
      · exact absurd (heq.trans hk) hne
      · exact hmem
    · rw [if_neg hk]
      rcases List.mem_cons.mp h with heq | hmem
      · simp [heq]
      · simp [ih hmem]

lemma insertHash_config (h : HyperLogLog) (hash : Nat) :
    (h.insertHash hash).config = h.config := by
  unfold HyperLogLog.insertHash
  dsimp only
  split <;> rfl

lemma Insert_sketch_config (hash : T → Nat) (c : CachedSketch) (item : T) :
    ((c.Insert hash item).sketch).config = c.sketch.config := by
  unfold CachedSketch.Insert HyperLogLog.Insert
  exact insertHash_config _ _

lemma Clear_sketch_config (c : CachedSketch) :
    ((c.Clear).sketch).config = c.sketch.config := rfl

lemma HLL_Merge_ok (h o : HyperLogLog)
    (hm : h.config.NumRegisters = o.config.NumRegisters) :
    ∃ h', h.Merge (.hll o) = .ok h' ∧ h'.config = h.config := by
  unfold HyperLogLog.Merge
  simp only []
  rw [if_neg (by rw [hm]; exact fun hne => hne rfl)]
  exact ⟨_, rfl, rfl⟩

lemma CachedSketch_Merge_cached_ok (c oc : CachedSketch)
    (hm : c.sketch.config.NumRegisters = oc.sketch.config.NumRegisters) :
    ∃ c', c.Merge (.cached oc) = .ok c' ∧ c'.sketch.config = c.sketch.config := by
  unfold CachedSketch.Merge
  simp only []
  obtain ⟨h', hok, hcfg⟩ := HLL_Merge_ok c.sketch oc.sketch hm
  rw [hok]
  exact ⟨_, rfl, hcfg⟩

lemma mergeCountersLoop_ok [DecidableEq L] (cfg : Config)
    (rest : List (L × CachedSketch)) :
    ∀ acc : List (L × CachedSketch),
    (∀ p ∈ acc, p.2.sketch.config.NumRegisters = cfg.CardinalitySketchConfig.NumRegisters) →
    (∀ p ∈ rest, p.2.sketch.config.NumRegisters = cfg.CardinalitySketchConfig.NumRegisters) →
    (mergeCountersLoop cfg acc rest).2 = none ∧
    (∀ p ∈ (mergeCountersLoop cfg acc rest).1,
      p.2.sketch.config.NumRegisters = cfg.CardinalitySketchConfig.NumRegisters) ∧
    ((acc.map Prod.fst).Nodup → ((mergeCountersLoop cfg acc rest).1.map Prod.fst).Nodup) := by
  induction rest with
  | nil => exact fun acc hacc _ => ⟨rfl, hacc, id⟩
  | cons q rest ih =>
    rcases q with ⟨label, counter⟩
    intro acc hacc hrest
    have hcm : counter.sketch.config.NumRegisters = cfg.CardinalitySketchConfig.NumRegisters :=
      hrest (label, counter) (List.mem_cons_self _ _)
    unfold mergeCountersLoop
    rcases hl : lookupC acc label with _ | existing
    · simp only []
      have hm : (NewCachedSketch
          (NewHyperLogLog cfg.CardinalitySketchConfig)).sketch.config.NumRegisters =
          counter.sketch.config.NumRegisters := by
        simp [NewCachedSketch, NewHyperLogLog, hcm]
      obtain ⟨c', hok, hcfg⟩ :=
        CachedSketch_Merge_cached_ok (NewCachedSketch (NewHyperLogLog cfg.CardinalitySketchConfig))
          counter hm
      rw [hok]
      refine ih (acc ++ [(label, c')]) ?_ (fun p hp => hrest p (List.mem_cons_of_mem _ hp))
        |>.imp id (And.imp id ?_)
      · intro p hp
        rcases List.mem_append.mp hp with hmem | hmem
        · exact hacc p hmem
        · rcases List.mem_singleton.mp hmem with rfl
          rw [hcfg]
          simp [NewCachedSketch, NewHyperLogLog]
      · intro hnext hnd
        apply hnext
        rw [List.map_append]
        simp only [List.map_cons, List.map_nil]
        rw [List.nodup_append]
        refine ⟨hnd, List.nodup_singleton _, ?_⟩
        intro a ha hmem
        rcases List.mem_singleton.mp hmem with rfl
        obtain ⟨p, hp, hp1⟩ := List.mem_map.mp ha
        exact (lookupC_eq_none_iff acc a).mp hl p hp hp1
    · simp only []
      have hem : existing.sketch.config.NumRegisters = cfg.CardinalitySketchConfig.NumRegisters :=
        hacc (label, existing) (lookupC_eq_some_mem hl)
      obtain ⟨c', hok, hcfg⟩ :=
        CachedSketch_Merge_cached_ok existing counter (by rw [hem, hcm])
      rw [hok]
      refine ih (updateC acc label c') ?_ (fun p hp => hrest p (List.mem_cons_of_mem _ hp))
        |>.imp id (And.imp id ?_)
      · intro p hp
        rcases mem_updateC hp with hmem | h2
        · exact hacc p hmem
        · rw [h2, hcfg, hem]
      · intro hnext hnd
        apply hnext
        rw [keys_updateC]
        exact hnd

lemma foldl_eraseC_length [DecidableEq L] (ds : List L) :
    ∀ cs : List (L × CachedSketch), ds.Nodup →
    (∀ l ∈ ds, l ∈ cs.map Prod.fst) →
    (ds.foldl (fun acc l => eraseC acc l) cs).length + ds.length = cs.length := by
  induction ds with
  | nil => intro cs _ _; simp
  | cons d ds ih =>
    intro cs hnd hmem
    simp only [List.foldl_cons, List.length_cons]
    have hd : d ∈ cs.map Prod.fst := hmem d (List.mem_cons_self _ _)
    obtain ⟨p, hp, hp1⟩ := List.mem_map.mp hd
    have hdc : (d, p.2) ∈ cs := by
      rw [← hp1]
      exact hp
    have hlen : (eraseC cs d).length + 1 = cs.length := length_eraseC hdc
    have hrest : ∀ l ∈ ds, l ∈ (eraseC cs d).map Prod.fst := by
      intro l hl
      have hne : l ≠ d := by
        rintro rfl
        exact (List.nodup_cons.mp hnd).1 hl
      exact mem_keys_eraseC hne (hmem l (List.mem_cons_of_mem _ hl))
    have := ih (eraseC cs d) (List.nodup_cons.mp hnd).2 hrest
    omega

lemma foldl_eraseC_sublist [DecidableEq L] (ds : List L) :
    ∀ cs : List (L × CachedSketch),
    (ds.foldl (fun acc l => eraseC acc l) cs).Sublist cs := by
  induction ds with
  | nil => intro cs; simp
  | cons d ds ih =>
    intro cs
    simp only [List.foldl_cons]
    exact (ih (eraseC cs d)).trans (eraseC_sublist cs d)

lemma Insert_inv [DecidableEq L] {cfg : Config} {s : SamplingSpaceSavingSets L}
    (hs : TrackerInv cfg s) (hash : T → Nat) (label : L) (item : T) :
    TrackerInv cfg (SamplingSpaceSavingSets.Insert hash s label item) := by
  obtain ⟨hcfg, hlen, hnd, hall⟩ := hs
  unfold SamplingSpaceSavingSets.Insert
  rcases hl : lookupC s.counters label with _ | counter
  · simp only []
    by_cases hsp : s.counters.length < s.config.MaxNumCounters
    · rw [if_pos hsp]
      refine ⟨hcfg, ?_, ?_, ?_⟩
      · simp only [List.length_append, List.length_cons, List.length_nil]
        rw [hcfg] at hsp
        omega
      · rw [List.map_append]
        simp only [List.map_cons, List.map_nil]
        rw [List.nodup_append]
        refine ⟨hnd, List.nodup_singleton _, ?_⟩
        intro a ha hmem
        rcases List.mem_singleton.mp hmem with rfl
        obtain ⟨p, hp, hp1⟩ := List.mem_map.mp ha
        exact (lookupC_eq_none_iff s.counters a).mp hl p hp hp1
      · intro p hp
        rcases List.mem_append.mp hp with hmem | hmem
        · exact hall p hmem
        · rcases List.mem_singleton.mp hmem with rfl
          rw [Insert_sketch_config]
          simp [NewCachedSketch, NewHyperLogLog, hcfg]
    · rw [if_neg hsp]
      by_cases hadm : s.threshold < s.cardinalityEstimate (hash item)
      · rw [if_pos hadm]
        rcases hscan : scanMin s.counters with ⟨optL, mc⟩
        rcases optL with _ | ml
        · exact ⟨hcfg, hlen, hnd, hall⟩
        · simp only []
          by_cases hrep : mc < s.cardinalityEstimate (hash item)
          · rw [if_pos hrep]
            rcases hml : lookupC s.counters ml with _ | mcounter
            · exact ⟨hcfg, hlen, hnd, hall⟩
            · have hmm : (ml, mcounter) ∈ s.counters := lookupC_eq_some_mem hml
              refine ⟨hcfg, ?_, ?_, ?_⟩
              · simp only [List.length_append, List.length_cons, List.length_nil]
                have := length_eraseC hmm
                omega
              · rw [List.map_append]
                simp only [List.map_cons, List.map_nil]
                rw [List.nodup_append]
                refine ⟨((eraseC_sublist s.counters ml).map Prod.fst).nodup hnd,
                  List.nodup_singleton _, ?_⟩
                intro a ha hmem
                rcases List.mem_singleton.mp hmem with rfl
                obtain ⟨p, hp, hp1⟩ := List.mem_map.mp ha
                exact (lookupC_eq_none_iff s.counters a).mp hl p
                  ((eraseC_sublist s.counters ml).mem hp) hp1
              · intro p hp
                rcases List.mem_append.mp hp with hmem | hmem
                · exact hall p ((eraseC_sublist s.counters ml).mem hmem)
                · rcases List.mem_singleton.mp hmem with rfl
                  simp only []
                  rw [Insert_sketch_config, Clear_sketch_config]
                  exact hall (ml, mcounter) hmm
          · rw [if_neg hrep]
            exact ⟨hcfg, hlen, hnd, hall⟩
      · rw [if_neg hadm]
        exact ⟨hcfg, hlen, hnd, hall⟩
  · simp only []
    refine ⟨hcfg, ?_, ?_, ?_⟩
    · rw [length_updateC]
      exact hlen
    · rw [keys_updateC]
      exact hnd
    · intro p hp
      rcases mem_updateC hp with hmem | h2
      · exact hall p hmem
      · rw [h2, Insert_sketch_config]
        exact hall (label, counter) (lookupC_eq_some_mem hl)

lemma Merge_inv [DecidableEq L] {cfg cfg' : Config} {s o : SamplingSpaceSavingSets L}
    (hs : TrackerInv cfg s) (ho : TrackerInv cfg' o) :
    TrackerInv cfg (SamplingSpaceSavingSets.Merge s o).1 := by
  obtain ⟨hcfg, hlen, hnd, hall⟩ := hs
  obtain ⟨hcfg', hlen', hnd', hall'⟩ := ho
  unfold SamplingSpaceSavingSets.Merge
  by_cases h1 : s.config.MaxNumCounters ≠ o.config.MaxNumCounters ∨
      s.config.Seeds.length ≠ o.config.Seeds.length
  · rw [if_pos h1]
    exact ⟨hcfg, hlen, hnd, hall⟩
  rw [if_neg h1]
  by_cases h2 : s.config.Seeds ≠ o.config.Seeds
  · rw [if_pos h2]
    exact ⟨hcfg, hlen, hnd, hall⟩
  rw [if_neg h2]
  by_cases h3 : s.config.CardinalitySketchConfig.NumRegisters ≠
      o.config.CardinalitySketchConfig.NumRegisters
  · rw [if_pos h3]
    exact ⟨hcfg, hlen, hnd, hall⟩
  rw [if_neg h3]
  have haccN : ∀ p ∈ s.counters, p.2.sketch.config.NumRegisters =
      s.config.CardinalitySketchConfig.NumRegisters := by
    intro p hp
    rw [hcfg]
    exact hall p hp
  have hrestN : ∀ p ∈ o.counters, p.2.sketch.config.NumRegisters =
      s.config.CardinalitySketchConfig.NumRegisters := by
    intro p hp
    rw [show s.config.CardinalitySketchConfig.NumRegisters =
      o.config.CardinalitySketchConfig.NumRegisters from not_ne_iff.mp h3, hcfg']
    exact hall' p hp
  obtain ⟨hnone, hallcs, hndcs⟩ :=
    mergeCountersLoop_ok s.config o.counters s.counters haccN hrestN
  rcases hloop : mergeCountersLoop s.config s.counters o.counters with ⟨cs, err⟩
  rw [hloop] at hnone hallcs hndcs
  simp only [] at hnone
  subst hnone
  simp only []
  have hndk : (cs.map Prod.fst).Nodup := hndcs hnd
  by_cases hover : s.config.MaxNumCounters < cs.length
  · rw [if_pos hover]
    set entries := cs.map (fun p => LabelCount.mk p.1 p.2.cardinality) with hentries
    set sorted := entries.mergeSort (fun a b => decide (b.Count ≤ a.Count)) with hsorted
    have entriesKeys : entries.map LabelCount.Label = cs.map Prod.fst := by
      rw [hentries, List.map_map]
      rfl
    have sortedPerm : sorted.Perm entries := List.mergeSort_perm entries _
    have sortedKeys : (sorted.map LabelCount.Label).Perm (cs.map Prod.fst) := by
      rw [← entriesKeys]
      exact sortedPerm.map _
    have ndSorted : (sorted.map LabelCount.Label).Nodup := sortedKeys.nodup_iff.mpr hndk
    have hfold : (sorted.drop s.config.MaxNumCounters).foldl
        (fun acc e => eraseC acc e.Label) cs =
        ((sorted.drop s.config.MaxNumCounters).map LabelCount.Label).foldl
          (fun acc l => eraseC acc l) cs := by
      rw [List.foldl_map]
    have nddrop : ((sorted.drop s.config.MaxNumCounters).map LabelCount.Label).Nodup :=
      (((List.drop_sublist _ _).map LabelCount.Label).nodup) ndSorted
    have memdrop : ∀ l ∈ (sorted.drop s.config.MaxNumCounters).map LabelCount.Label,
        l ∈ cs.map Prod.fst := by
      intro l hl
      exact sortedKeys.mem_iff.mp (((List.drop_sublist _ _).map LabelCount.Label).mem hl)
    have hlength : ((sorted.drop s.config.MaxNumCounters).map LabelCount.Label).length =
        cs.length - s.config.MaxNumCounters := by
      rw [List.length_map, List.length_drop, hsorted, List.length_mergeSort, hentries,
        List.length_map]
    have hfl := foldl_eraseC_length
      ((sorted.drop s.config.MaxNumCounters).map LabelCount.Label) cs nddrop memdrop
    refine ⟨hcfg, ?_, ?_, ?_⟩
    · dsimp only
      rw [hfold]
      rw [hlength] at hfl
      rw [← hcfg] at hlen ⊢
      omega
    · rw [hfold]
      exact ((foldl_eraseC_sublist _ cs).map Prod.fst).nodup hndk
    · rw [hfold]
      intro p hp
      rw [← hcfg]
      exact hallcs p ((foldl_eraseC_sublist _ cs).mem hp)
  · rw [if_neg hover]
    refine ⟨hcfg, ?_, hndk, ?_⟩
    · dsimp only
      rw [← hcfg]
      omega
    · intro p hp
      rw [← hcfg]
      exact hallcs p hp

lemma reachable_inv [DecidableEq L] {hash : T → Nat} {cfg : Config}
    {s : SamplingSpaceSavingSets L} (h : Reachable hash cfg s) : TrackerInv cfg s := by
  induction h with
  | new cfg => exact ⟨rfl, by simp [NewSamplingSpaceSavingSets], by simp [NewSamplingSpaceSavingSets],
      by simp [NewSamplingSpaceSavingSets]⟩
  | insert label item _ ih => exact Insert_inv ih _ label item
  | clear _ ih => exact ⟨ih.1, by simp [SamplingSpaceSavingSets.Clear],
      by simp [SamplingSpaceSavingSets.Clear], by simp [SamplingSpaceSavingSets.Clear]⟩
  | merge _ _ ih ih' => exact Merge_inv ih ih'

/-- C9: whenever the tracker-level `Merge` returns a configuration
mismatch error (differing capacity, seed sequences, or register counts),
the receiver is returned completely unmodified, and - given the
register-count invariant that all API-built trackers satisfy - these
pre-mutation configuration checks are the only error source, so no error
can occur after mutation has started.  The argument tracker is never
mutated (`Merge` is a pure function of it). -/
theorem Merge_atomic [DecidableEq L] (s o : SamplingSpaceSavingSets L)
    (hs : CountersWF s) (ho : CountersWF o) :
    ((SamplingSpaceSavingSets.Merge s o).2.isSome →
      (SamplingSpaceSavingSets.Merge s o).1 = s) ∧
    ((SamplingSpaceSavingSets.Merge s o).2.isSome ↔
      ¬ (s.config.MaxNumCounters = o.config.MaxNumCounters ∧
        s.config.Seeds = o.config.Seeds ∧
        s.config.CardinalitySketchConfig.NumRegisters =
          o.config.CardinalitySketchConfig.NumRegisters)) := by
  unfold SamplingSpaceSavingSets.Merge
  by_cases h1 : s.config.MaxNumCounters ≠ o.config.MaxNumCounters ∨
      s.config.Seeds.length ≠ o.config.Seeds.length
  · rw [if_pos h1]
    refine ⟨fun _ => rfl, ?_⟩
    simp only [Option.isSome_some, true_iff]
    rintro ⟨hc1, hc2, _⟩
    rcases h1 with h | h
    · exact h hc1
    · exact h (by rw [hc2])
  rw [if_neg h1]
  by_cases h2 : s.config.Seeds ≠ o.config.Seeds
  · rw [if_pos h2]
    refine ⟨fun _ => rfl, ?_⟩
    simp only [Option.isSome_some, true_iff]
    rintro ⟨_, hc2, _⟩
    exact h2 hc2
  rw [if_neg h2]
  by_cases h3 : s.config.CardinalitySketchConfig.NumRegisters ≠
      o.config.CardinalitySketchConfig.NumRegisters
  · rw [if_pos h3]
    refine ⟨fun _ => rfl, ?_⟩
    simp only [Option.isSome_some, true_iff]
    rintro ⟨_, _, hc3⟩
    exact h3 hc3
  rw [if_neg h3]
  have hrestN : ∀ p ∈ o.counters, p.2.sketch.config.NumRegisters =
      s.config.CardinalitySketchConfig.NumRegisters := by
    intro p hp
    rw [show s.config.CardinalitySketchConfig.NumRegisters =
      o.config.CardinalitySketchConfig.NumRegisters from not_ne_iff.mp h3]
    exact ho p hp
  obtain ⟨hnone, -, -⟩ := mergeCountersLoop_ok s.config o.counters s.counters hs hrestN
  rcases hloop : mergeCountersLoop s.config s.counters o.counters with ⟨cs, err⟩
  rw [hloop] at hnone
  simp only [] at hnone
  subst hnone
  simp only []
  constructor
  · intro hsome
    simp at hsome
  · simp only [Option.isSome_none, Bool.false_eq_true, false_iff, not_not]
    exact ⟨not_ne_iff.mp (fun h => h1 (Or.inl h)), not_ne_iff.mp h2, not_ne_iff.mp h3⟩

lemma pow2neg_nonneg (r : Nat) : 0 ≤ pow2neg r := by
  unfold pow2neg
  positivity

lemma one_le_zInv_of_zero_mem (h : HyperLogLog)
    (hz : h.zInv = (h.registers.map pow2neg).sum) (hmem : (0 : Nat) ∈ h.registers) :
    1 ≤ h.zInv := by
  rw [hz]
  have h1 : pow2neg 0 ∈ h.registers.map pow2neg := List.mem_map.mpr ⟨0, hmem, rfl⟩
  have := List.single_le_sum (fun x hx => by
    obtain ⟨r, _, rfl⟩ := List.mem_map.mp hx
    exact pow2neg_nonneg r) _ h1
  simpa [pow2neg] using this

/-- C7: on any well-formed sketch state, `Cardinality` returns
`floor(m^2 * alpha / zInv)` except that, when that raw value is at most
`floor(5*m/2)` and at least one register is zero, it returns the
truncated linear-counting estimate `m * ln(m / numZeroRegisters)`; and
the linear-counting branch is never taken when no register is zero.  (The
code compares against `5*(m >> 1)`; for every well-formed state this
agrees with the claim's `floor(5m/2)`, because `m` is a power of two and
in the only odd case `m = 1` a zero register forces the raw estimate to
0, below both thresholds.) -/
theorem hll_cardinality_spec (h : HyperLogLog) (hwf : h.WF) :
    (h.Cardinality =
      if Nat.floor (((h.config.NumRegisters ^ 2 : Nat) : ℚ) * h.config.Alpha / h.zInv)
          ≤ 5 * h.config.NumRegisters / 2 ∧ 0 < h.numZeroRegisters then
        Nat.floor ((h.config.NumRegisters : ℝ) *
          Real.log ((h.config.NumRegisters : ℝ) / (h.numZeroRegisters : ℝ)))
      else Nat.floor (((h.config.NumRegisters ^ 2 : Nat) : ℚ) * h.config.Alpha / h.zInv)) ∧
    (h.numZeroRegisters = 0 →
      h.Cardinality =
        Nat.floor (((h.config.NumRegisters ^ 2 : Nat) : ℚ) * h.config.Alpha / h.zInv)) := by
  obtain ⟨hreg, ⟨k, hk⟩, halpha, hV, hz⟩ := hwf
  have hraw : Nat.floor (((h.config.NumRegisters ^ 2 : Nat) : ℚ) * h.config.Alpha / h.zInv)
      = h.rawEstimate := by
    unfold HyperLogLog.rawEstimate
    rw [pow_two]
  rw [hraw]
  constructor
  · rcases Nat.eq_zero_or_pos h.numZeroRegisters with h0 | hpos
    · unfold HyperLogLog.Cardinality
      simp [h0]
    · rcases Nat.eq_zero_or_pos k with hk0 | hkpos
      · -- m = 1: a zero register forces zInv ≥ 1 and hence a zero raw estimate
        subst hk0
        simp only [pow_zero] at hk
        have hzero_mem : (0 : Nat) ∈ h.registers := by
          rw [hV] at hpos
          obtain ⟨r, hrmem⟩ := List.exists_mem_of_length_pos hpos
          obtain ⟨hrmem', hr⟩ := List.mem_filter.mp hrmem
          simp at hr
          rwa [← hr]
        have hz1 : 1 ≤ h.zInv := one_le_zInv_of_zero_mem h hz hzero_mem
        have hraw0 : h.rawEstimate = 0 := by
          unfold HyperLogLog.rawEstimate
          rw [Nat.floor_eq_zero]
          rw [hk, halpha, hk]
          have ha1 : alphaOf 1 < 1 := by norm_num [alphaOf]
          have : ((1 * 1 : Nat) : ℚ) * alphaOf 1 = alphaOf 1 := by norm_num
          rw [this]
          calc alphaOf 1 / h.zInv ≤ alphaOf 1 / 1 := by
                apply div_le_div_of_nonneg_left _ (by norm_num) hz1
                norm_num [alphaOf]
            _ < 1 := by simpa using ha1
        unfold HyperLogLog.Cardinality HyperLogLog.linearCounting
        rw [hraw0, hk]
        rw [if_pos (by norm_num), if_pos hpos, if_pos ⟨by norm_num, hpos⟩]
      · -- m = 2^k with k ≥ 1: the two threshold readings agree
        have hdvd : 2 ∣ h.config.NumRegisters := by
          rw [hk]
          exact Dvd.intro (2^(k-1)) (by rw [← pow_succ']; congr 1; omega)
        have hsh : 5 * (h.config.NumRegisters >>> 1) = 5 * h.config.NumRegisters / 2 := by
          rw [Nat.shiftRight_one]
          exact (Nat.mul_div_assoc 5 hdvd).symm
        unfold HyperLogLog.Cardinality HyperLogLog.linearCounting
        rw [hsh]
        by_cases hA : h.rawEstimate ≤ 5 * h.config.NumRegisters / 2
        · rw [if_pos hA, if_pos hpos, if_pos ⟨hA, hpos⟩]
        · rw [if_neg hA, if_neg (fun hc => hA hc.1)]
  · intro h0
    unfold HyperLogLog.Cardinality
    rw [h0]
    simp

lemma trailingZeros64_zero : trailingZeros64 0 = 64 := by decide

lemma trailingZeros64_lt_64 {n : Nat} (h0 : n ≠ 0) (hlt : n < 2^64) :
    trailingZeros64 n < 64 := by
  unfold trailingZeros64
  rcases hfind : (List.range 64).find? (fun i => n.testBit i) with _ | i
  · exfalso
    apply h0
    apply Nat.eq_of_testBit_eq
    intro i
    rcases lt_or_ge i 64 with hi | hi
    · have := List.find?_eq_none.mp hfind i (List.mem_range.mpr hi)
      simpa using this
    · rw [Nat.zero_testBit]
      exact Nat.testBit_eq_false_of_lt
        (lt_of_lt_of_le hlt (Nat.pow_le_pow_right (by norm_num) hi))
  · have := List.mem_of_find?_eq_some hfind
    simpa [List.mem_range] using this

/-- C5 (amended): with no seeds configured, the cheap admission estimate
is two raised to the trailing-zero count of the unmixed 64-bit hash,
saturating to `2^64 - 1` when the hash is zero - not the trailing-zero
count itself. -/
theorem cardinalityEstimate_seedless_spec (s : SamplingSpaceSavingSets L)
    (hseeds : s.config.Seeds = []) (itemHash : Nat) (hlt : itemHash < 2^64) :
    s.cardinalityEstimate itemHash =
      if itemHash = 0 then 2^64 - 1 else 2 ^ trailingZeros64 itemHash := by
  unfold SamplingSpaceSavingSets.cardinalityEstimate
  rw [hseeds]
  simp only [List.length_nil]
  by_cases h0 : itemHash = 0
  · subst h0
    simp [trailingZeros64_zero]
  · simp [h0, not_le.mpr (trailingZeros64_lt_64 h0 hlt)]

/-- C10: `Top` is total exactly for `k >= 0`: it then returns
`min(k, number of entries)` label-count pairs (the model is a pure
function, so the tracker is not mutated), while every `k < 0` - also on
an empty tracker - hits the out-of-range slice access `entries[:k]`,
modelled as `none`. -/
theorem top_spec (s : SamplingSpaceSavingSets L) (k : Int) :
    (0 ≤ k → ∃ l, s.Top k = some l ∧ l.length = min k.toNat s.counters.length) ∧
    (k < 0 → s.Top k = none) := by
  unfold SamplingSpaceSavingSets.Top
  have hlen : ((s.counters.map (fun p => LabelCount.mk p.1 p.2.cardinality)).mergeSort
      (fun a b => decide (b.Count ≤ a.Count))).length = s.counters.length := by
    rw [List.length_mergeSort, List.length_map]
  constructor
  · intro hk
    by_cases hlt : k < (((s.counters.map (fun p => LabelCount.mk p.1 p.2.cardinality)).mergeSort
        (fun a b => decide (b.Count ≤ a.Count))).length : Int)
    · rw [if_pos hlt, if_pos hk]
      refine ⟨_, rfl, ?_⟩
      rw [List.length_take, hlen]
    · rw [if_neg hlt]
      refine ⟨_, rfl, ?_⟩
      rw [hlen] at hlt ⊢
      rw [Nat.min_eq_right]
      omega
  · intro hk
    rw [if_pos (lt_of_lt_of_le hk (by positivity)), if_neg (not_le.mpr hk)]

set_option maxRecDepth 100000 in
theorem delegated_merge_stale_eval :
    (CachedSketch.Merge (NewCachedSketch (NewHyperLogLog hllCfg1))
        (.hll (HyperLogLog.Insert fnvNat (NewHyperLogLog hllCfg1) 0))).map
      (fun c => (c.cardinality, c.sketch.Cardinality)) = .ok (0, 5) := by
  rw [hllIns0]
  unfold CachedSketch.Merge
  simp only []
  unfold HyperLogLog.Merge
  simp only []
  rw [show (NewCachedSketch (NewHyperLogLog hllCfg1)).sketch = NewHyperLogLog hllCfg1 from rfl]
  rw [if_neg (by decide :
    ¬ (NewHyperLogLog hllCfg1).config.NumRegisters ≠ hllReg4.config.NumRegisters)]
  have hregs : (List.range (NewHyperLogLog hllCfg1).config.NumRegisters).map
      (fun i => max ((NewHyperLogLog hllCfg1).registers.getD i 0)
        (hllReg4.registers.getD i 0)) = [4] := by decide
  rw [hregs]
  simp only [Except.map]
  have hstate : HyperLogLog.mk (NewHyperLogLog hllCfg1).config [4]
      (List.filter (fun r => decide (r = 0)) [4]).length
      (([4].map pow2neg).sum) = hllReg4 := by
    unfold hllReg4 NewHyperLogLog
    norm_num [pow2neg]
  rw [hstate]
  rw [show (NewCachedSketch (NewHyperLogLog hllCfg1)).cardinality = 0 from rfl, card_reg4]

lemma trace2_eq : trace2 = S2 := by
  unfold trace2
  rw [trace1_eq, step2_eq]

/-- C2 counterexample: after the two genuine inserts of `trace2`, the
tracker's threshold is 5, but its only entry has (cached and freshly
computed) cardinality 0, so the threshold is not a lower bound on the
minimum cardinality of the current entries. -/
theorem threshold_lower_bound_counterexample :
    trace2.threshold = 5 ∧
    trace2.counters = [(1, CachedSketch.mk hllReg1 0)] ∧
    (CachedSketch.mk hllReg1 0).Cardinality = 0 ∧
    hllReg1.Cardinality = 0 ∧
    ¬ (trace2.threshold ≤ (CachedSketch.mk hllReg1 0).Cardinality) := by
  rw [trace2_eq]
  refine ⟨rfl, rfl, rfl, card_reg1, ?_⟩
  rw [show (CachedSketch.mk hllReg1 0).Cardinality = 0 from rfl]
  norm_num [S2]

set_option maxRecDepth 100000 in
/-- C3 counterexample: the insert of item `25` under the absent label `2`
on the full tracker `trace2` is an admission-test insertion (cheap
estimate 32 exceeds the threshold 5), and the threshold assignment it
performs lowers the threshold from 5 to 0. -/
theorem threshold_monotonic_counterexample :
    lookupC trace2.counters 2 = none ∧
    ¬ (trace2.counters.length < trace2.config.MaxNumCounters) ∧
    trace2.threshold < trace2.cardinalityEstimate (fnvNat 25) ∧
    trace2.threshold = 5 ∧
    (SamplingSpaceSavingSets.Insert fnvNat trace2 2 25).threshold = 0 := by
  rw [trace2_eq]
  refine ⟨by norm_num [S2, lookupC], by norm_num [S2, trCfg1], by decide, rfl, step3_threshold⟩

/-- C4 counterexample: merging the reachable tracker `trace2` (threshold
5) with a freshly created tracker of identical configuration succeeds and
leaves the entries unchanged, but resets the threshold to 0. -/
theorem merge_identity_counterexample :
    (SamplingSpaceSavingSets.Merge trace2 (NewSamplingSpaceSavingSets Nat trCfg1)).2 = none ∧
    (SamplingSpaceSavingSets.Merge trace2 (NewSamplingSpaceSavingSets Nat trCfg1)).1.counters =
      trace2.counters ∧
    trace2.threshold = 5 ∧
    (SamplingSpaceSavingSets.Merge trace2 (NewSamplingSpaceSavingSets Nat trCfg1)).1.threshold = 0 ∧
    trace2.config = (NewSamplingSpaceSavingSets Nat trCfg1).config := by
  rw [trace2_eq, merge_S2_fresh]
  exact ⟨rfl, rfl, rfl, rfl, rfl⟩

/-- C4 (amended): merging any tracker with a freshly created or freshly
cleared tracker of identical configuration succeeds and leaves the
receiver's entries unchanged, but recomputes the threshold as the minimum
cached cardinality over the receiver's entries (0 when there are none),
which need not equal the previous threshold. -/
theorem merge_with_cleared_tracker [DecidableEq L] (s E : SamplingSpaceSavingSets L)
    (hlen : s.counters.length ≤ s.config.MaxNumCounters)
    (hcfg : E.config = s.config) (hE : E.counters = []) :
    (SamplingSpaceSavingSets.Merge s E).2 = none ∧
    (SamplingSpaceSavingSets.Merge s E).1.counters = s.counters ∧
    (SamplingSpaceSavingSets.Merge s E).1.threshold = recomputeThreshold s.counters := by
  rw [Merge_empty_other s E hlen hcfg hE]
  exact ⟨rfl, rfl, rfl⟩

/-- Witness for the amended C4 theorem at a concrete tracker. -/
theorem merge_with_cleared_tracker_witness :
    (SamplingSpaceSavingSets.Merge (NewSamplingSpaceSavingSets Nat trCfg1)
      ((NewSamplingSpaceSavingSets Nat trCfg1).Clear)).2 = none :=
  (merge_with_cleared_tracker (NewSamplingSpaceSavingSets Nat trCfg1)
    ((NewSamplingSpaceSavingSets Nat trCfg1).Clear)
    (by norm_num [NewSamplingSpaceSavingSets, trCfg1]) rfl rfl).1

/-- C2 (amended): at the moment the admission test assigns the threshold,
the assigned value is a lower bound on the cached cardinality of every
entry present at that moment (it is the minimum-scan result).  The bound
is not maintained as an invariant afterwards: the replacement performed
later in the same insert can introduce an entry below it (see the
counterexample). -/
theorem insert_admission_threshold_bound [DecidableEq L] (hash : T → Nat)
    (s : SamplingSpaceSavingSets L) (label : L) (item : T)
    (habs : lookupC s.counters label = none)
    (hfull : ¬ s.counters.length < s.config.MaxNumCounters)
    (hadm : s.threshold < s.cardinalityEstimate (hash item)) :
    ∀ p ∈ s.counters,
      (SamplingSpaceSavingSets.Insert hash s label item).threshold ≤ p.2.cardinality := by
  intro p hp
  rw [Insert_admission_threshold hash s label item habs hfull hadm]
  unfold scanMin
  exact (scanMin_le s.counters (none, 2^64 - 1)).2 p hp

set_option maxRecDepth 100000 in
/-- Witness for the amended C2 theorem on a concrete admission insert. -/
theorem insert_admission_threshold_bound_witness :
    (SamplingSpaceSavingSets.Insert fnvNat S1 1 14).threshold ≤ 5 :=
  insert_admission_threshold_bound fnvNat S1 1 14 (by norm_num [S1, lookupC])
    (by norm_num [S1, trCfg1]) (by decide) (0, CachedSketch.mk hllReg4 5)
    (List.mem_cons_self _ _)

/-- C3 (amended): every admission-test insertion that passes the
cheap-estimate gate sets the threshold to the minimum scan over the
current entries' cached cardinalities, and this does not decrease the
threshold whenever the previous threshold was still at most that
minimum; after a replacement has pushed the minimum below the threshold,
however, the next assignment strictly decreases it (see the
counterexample). -/
theorem insert_admission_threshold_eq [DecidableEq L] (hash : T → Nat)
    (s : SamplingSpaceSavingSets L) (label : L) (item : T)
    (habs : lookupC s.counters label = none)
    (hfull : ¬ s.counters.length < s.config.MaxNumCounters)
    (hadm : s.threshold < s.cardinalityEstimate (hash item)) :
    (SamplingSpaceSavingSets.Insert hash s label item).threshold = (scanMin s.counters).2 ∧
    (s.threshold ≤ (scanMin s.counters).2 →
      s.threshold ≤ (SamplingSpaceSavingSets.Insert hash s label item).threshold) := by
  have h := Insert_admission_threshold hash s label item habs hfull hadm
  exact ⟨h, fun hle => h ▸ hle⟩

set_option maxRecDepth 100000 in
/-- Witness for the amended C3 theorem on a concrete admission insert. -/
theorem insert_admission_threshold_eq_witness :
    (SamplingSpaceSavingSets.Insert fnvNat S1 1 14).threshold = (scanMin S1.counters).2 :=
  (insert_admission_threshold_eq fnvNat S1 1 14 (by norm_num [S1, lookupC])
    (by norm_num [S1, trCfg1]) (by decide)).1

/-- C8: every tracker reachable through the public API (construction from
a validated configuration with positive capacity, inserts, clears, and
successful or failed merges with other API-built trackers) holds at most
`MaxNumCounters` entries. -/
theorem tracker_capacity_bound [DecidableEq L] (hash : T → Nat) (cfg : Config)
    (s : SamplingSpaceSavingSets L) (_hcap : 0 < cfg.MaxNumCounters)
    (hr : Reachable hash cfg s) :
    s.counters.length ≤ cfg.MaxNumCounters :=
  (reachable_inv hr).2.1

/-- Witness for C8 at a freshly constructed tracker. -/
theorem tracker_capacity_bound_witness :
    (NewSamplingSpaceSavingSets Nat trCfg1).counters.length ≤ trCfg1.MaxNumCounters :=
  tracker_capacity_bound fnvNat trCfg1 (NewSamplingSpaceSavingSets Nat trCfg1)
    (by norm_num [trCfg1]) (Reachable.new trCfg1)

/-- Witness for C9: merging trackers whose capacities differ fails and returns the receiver unchanged. -/
theorem merge_atomic_witness :
    (SamplingSpaceSavingSets.Merge (NewSamplingSpaceSavingSets Nat trCfg1)
      (NewSamplingSpaceSavingSets Nat trCfg2)).1 = NewSamplingSpaceSavingSets Nat trCfg1 := by
  have h := Merge_atomic (NewSamplingSpaceSavingSets Nat trCfg1)
    (NewSamplingSpaceSavingSets Nat trCfg2)
    (fun p hp => absurd hp (by simp [NewSamplingSpaceSavingSets]))
    (fun p hp => absurd hp (by simp [NewSamplingSpaceSavingSets]))
  exact h.1 (h.2.mpr (by norm_num [NewSamplingSpaceSavingSets, trCfg1, trCfg2]))

/-- Witness for C10: negative `k` faults even on an empty tracker. -/
theorem top_spec_witness : (NewSamplingSpaceSavingSets Nat trCfg1).Top (-1) = none :=
  (top_spec (NewSamplingSpaceSavingSets Nat trCfg1) (-1)).2 (by norm_num)

lemma newHLL16_WF : (NewHyperLogLog hllCfg16).WF := by
  refine ⟨by simp [NewHyperLogLog], ⟨4, by decide⟩, rfl, by decide, ?_⟩
  show (16 : ℚ) = ((List.replicate 16 0).map pow2neg).sum
  rw [List.map_replicate, List.sum_replicate]
  norm_num [pow2neg]

/-- Witness for C7 at a well-formed fresh 16-register sketch. -/
theorem hll_cardinality_spec_witness :
    (NewHyperLogLog hllCfg16).Cardinality =
      if Nat.floor ((((NewHyperLogLog hllCfg16).config.NumRegisters ^ 2 : Nat) : ℚ) *
            (NewHyperLogLog hllCfg16).config.Alpha / (NewHyperLogLog hllCfg16).zInv)
          ≤ 5 * (NewHyperLogLog hllCfg16).config.NumRegisters / 2 ∧
          0 < (NewHyperLogLog hllCfg16).numZeroRegisters then
        Nat.floor (((NewHyperLogLog hllCfg16).config.NumRegisters : ℝ) *
          Real.log (((NewHyperLogLog hllCfg16).config.NumRegisters : ℝ) /
            ((NewHyperLogLog hllCfg16).numZeroRegisters : ℝ)))
      else
        Nat.floor ((((NewHyperLogLog hllCfg16).config.NumRegisters ^ 2 : Nat) : ℚ) *
          (NewHyperLogLog hllCfg16).config.Alpha / (NewHyperLogLog hllCfg16).zInv) :=
  (hll_cardinality_spec (NewHyperLogLog hllCfg16) newHLL16_WF).1

/-- C6: contrary to the claim, `NewHLLConfig` accepts an explicitly empty
(non-nil) seed slice - only a nil slice triggers random seed generation -
and returns a configuration with zero seeds, fewer than the two that
`HyperLogLog.hashItem` reads (`Seeds[1]`), leaving the out-of-range read
reachable at the first insert instead of failing construction with
InvalidConfig. -/
theorem newHLLConfig_accepts_short_seeds :
    NewHLLConfig (fun i => i) 16 (some []) = .ok shortSeedHLLConfig ∧
    shortSeedHLLConfig.Seeds.length < 2 := by
  constructor
  · unfold NewHLLConfig shortSeedHLLConfig
    rw [if_neg (by decide), if_neg (by decide)]
  · norm_num [shortSeedHLLConfig]

set_option maxRecDepth 100000 in
/-- C5 counterexample: for the seedless tracker configuration and the
real FNV-1a hash of item `14` (which has 3 trailing zeros), the cheap
estimate is `8 = 2^3`, not the trailing-zero count 3. -/
theorem cardinalityEstimate_seedless_counterexample :
    (NewSamplingSpaceSavingSets Nat trCfg1).cardinalityEstimate (fnvNat 14) = 8 ∧
    trailingZeros64 (fnvNat 14) = 3 ∧
    (NewSamplingSpaceSavingSets Nat trCfg1).cardinalityEstimate (fnvNat 14) ≠
      trailingZeros64 (fnvNat 14) := by
  refine ⟨?_, ?_, ?_⟩ <;> decide

set_option maxRecDepth 100000 in
/-- Witness for the amended C5 theorem at the hash of item 14. -/
theorem cardinalityEstimate_seedless_spec_witness :
    (NewSamplingSpaceSavingSets Nat trCfg1).cardinalityEstimate (fnvNat 14) =
      if fnvNat 14 = 0 then 2^64 - 1 else 2 ^ trailingZeros64 (fnvNat 14) :=
  cardinalityEstimate_seedless_spec (NewSamplingSpaceSavingSets Nat trCfg1) rfl
    (fnvNat 14) (by decide)

/-- C1: evaluation of the code at the failing input.  Delegating a merge
of a cache-0 wrapper with a bare (non-wrapped) sketch of cardinality 5
succeeds but leaves the cached cardinality at 0 while a fresh computation
on the merged underlying sketch yields 5 - the delegated-merge path skips
the cache refresh that the claim requires. -/
theorem delegated_merge_stale :
    (CachedSketch.Merge (NewCachedSketch (NewHyperLogLog hllCfg1))
        (.hll (HyperLogLog.Insert fnvNat (NewHyperLogLog hllCfg1) 0))).map
      (fun c => (c.cardinality, c.sketch.Cardinality)) = .ok (0, 5) ∧ (0 : Nat) ≠ 5 :=
  ⟨delegated_merge_stale_eval, by norm_num⟩
